import Mathlib

/-!
Verification development for the stac-catalog-builder repository.

The repository converts directories of GeoTIFF raster files into STAC
(SpatioTemporal Asset Catalog) collections.  The shipped sources consist of
notebooks, Makefiles, per-dataset JSON configuration files and documentation
that call into the `stacbuilder` Python package (`list_input_files`,
`list_asset_metadata`, `list_stac_items`, `build_collection`,
`validate_collection`, the path parsers and the `AssetMetadataPipeline`).
The package itself is not among the shipped sources, so the pipeline
operations are modelled from the specification and the in-repo documentation
(`docs/workflow.md`, `docs/how-to-run-stacbuilder.md`, the configuration
template comments, the CHANGELOG) and are evaluated on the concrete dataset
configurations that are shipped (the Landsat NDWI configuration, the Makefile
defaults, the workflow notebook).
-/

namespace StacBuilder

open List

/-- Field values extracted from a file path: an association list from field
name (named capture group or fixed value key) to extracted string value. -/
abbrev Bindings := List (String × String)

/-- Modelled from the spec: the regular-expression fragment used by the
configured path parsers (`input_path_parser_cfg` in the dataset configurations).
The shipped dataset configurations use patterns built from literals, `.`
(any character), a leading `.*`, `\d{n}`, `\d+` and named capture groups
`(?P<name>...)`; this AST covers exactly those constructs. -/
inductive RElem where
  | lit (c : Char)
  | dot
  | anyStar
  | digitsExact (n : Nat)
  | digitsPlus
  | group (gname : String) (ps : List RElem)

/-- All ways the `.*` construct can split the input: remaining suffixes of
the input, longest consumed prefix first (greedy order). -/
def consumeSuffixes : List Char → List (List Char)
  | [] => [[]]
  | c :: s => consumeSuffixes s ++ [c :: s]

/-- Consume exactly `n` decimal digits, returning the remainder. -/
def takeDigitsExact : Nat → List Char → Option (List Char)
  | 0, s => some s
  | _ + 1, [] => none
  | n + 1, c :: s => if c.isDigit then takeDigitsExact n s else none

/-- All remainders after consuming one or more decimal digits, longest
consumed prefix first (greedy order). -/
def digitsPlusRems : List Char → List (List Char)
  | [] => []
  | c :: s => if c.isDigit then digitsPlusRems s ++ [s] else []

mutual

/-- All ways a single regex element can match a prefix of the input:
each result is the list of named-group bindings produced together with the
remaining input.  Greedy alternatives are listed first. -/
def matchElem : RElem → List Char → List (Bindings × List Char)
  | .lit _, [] => []
  | .lit c, x :: s => if x = c then [([], s)] else []
  | .dot, [] => []
  | .dot, _ :: s => [([], s)]
  | .anyStar, s => (consumeSuffixes s).map (fun r => ([], r))
  | .digitsExact n, s =>
      match takeDigitsExact n s with
      | none => []
      | some r => [([], r)]
  | .digitsPlus, s => (digitsPlusRems s).map (fun r => ([], r))
  | .group gname ps, s =>
      (matchSeq ps s).map (fun br =>
        ((gname, String.mk (s.take (s.length - br.2.length))) :: br.1, br.2))

/-- All ways a sequence of regex elements can match a prefix of the input. -/
def matchSeq : List RElem → List Char → List (Bindings × List Char)
  | [], s => [([], s)]
  | p :: ps, s =>
      (matchElem p s).flatMap (fun br =>
        (matchSeq ps br.2).map (fun br2 => (br.1 ++ br2.1, br2.2)))

end

mutual

/-- The capture-group names appearing in one regex element. -/
def groupNamesElem : RElem → List String
  | .group gname ps => gname :: groupNamesSeq ps
  | _ => []

/-- The capture-group names appearing in a regex sequence. -/
def groupNamesSeq : List RElem → List String
  | [] => []
  | p :: ps => groupNamesElem p ++ groupNamesSeq ps

end

/-- Modelled from the spec: Python `re` search with an end anchor, as used by
the path parsers.  All shipped patterns start with `.*` and end with `$`, so
the search is rendered as: the first full match of the pattern against the
whole path (greedy alternatives first), returning the dictionary of named
capture groups. -/
def reSearch (ps : List RElem) (path : String) : Option Bindings :=
  (((matchSeq ps path.toList).filter (fun br => br.2.isEmpty)).head?).map
    (fun br => br.1)

/-- The reporting period of a dataset (`period` parameter of
`DefaultInputPathParser`): determines how a datetime is derived from the
parsed `year`/`month`/`day` fields. -/
inductive Period where
  | yearly
  | monthly
  | daily
deriving DecidableEq, Repr

/-- Configuration of a path parser (the `input_path_parser_cfg` object of a
dataset configuration): a regular expression with named capture groups,
a reporting period and a dictionary of fixed values. -/
structure ParserConfig where
  regex : List RElem
  period : Period
  fixed_values : Bindings

/-- Modelled from the spec: `DefaultInputPathParser.parse` of
`stacbuilder/pathparsers.py` (not among the shipped sources).  Per the spec
and the configuration template docs, it extracts field values from a file
path using the configured regular expression's named capture groups, adds
the configured fixed values, and a path that does not match the regular
expression yields no parsed field values. -/
def DefaultInputPathParser.parse (cfg : ParserConfig) (path : String) :
    Option Bindings :=
  (reSearch cfg.regex path).map (fun g => g ++ cfg.fixed_values)

/-- Dates are encoded as `year * 10000 + month * 100 + day`, so that the
numeric order is the chronological order. -/
def encodeDate (y m d : Nat) : Nat := y * 10000 + m * 100 + d

/-- Decimal digit-string parsing (the model of Python `int()` on the digit
strings captured by the path regular expressions). -/
def parseNatDigits (s : String) : Option Nat :=
  match s.toList with
  | [] => none
  | l =>
      if l.all Char.isDigit then
        some (l.foldl (fun acc c => acc * 10 + (c.toNat - 48)) 0)
      else none

/-- Modelled from the spec: derive the item datetime from the parsed path
fields, according to the configured period (`yearly` uses Jan 1 of `year`,
`monthly` the first of `year`-`month`, `daily` the full date). -/
def deriveDatetime (p : Period) (b : Bindings) : Option Nat :=
  match p with
  | .yearly =>
      match (b.lookup "year").bind parseNatDigits with
      | some y => some (encodeDate y 1 1)
      | none => none
  | .monthly =>
      match (b.lookup "year").bind parseNatDigits,
            (b.lookup "month").bind parseNatDigits with
      | some y, some m => some (encodeDate y m 1)
      | _, _ => none
  | .daily =>
      match (b.lookup "year").bind parseNatDigits,
            (b.lookup "month").bind parseNatDigits,
            (b.lookup "day").bind parseNatDigits with
      | some y, some m, some d => some (encodeDate y m d)
      | _, _, _ => none

/-- Modelled from the spec: glob matching as used by `list_input_files` to
select the GeoTIFF files inside the input directory (e.g. the shipped glob
patterns `*/*/*_03035_v020.tif` and `c*/*.tif`).  `noSlashSuffixes s` lists
the suffixes of `s` reachable by consuming a possibly empty run of
characters other than the path separator `/` (the strings a `*` can leave
behind). -/
def noSlashSuffixes : List Char → List (List Char)
  | [] => [[]]
  | c :: s => (c :: s) :: (if c = '/' then [] else noSlashSuffixes s)

/-- Glob pattern matching against a path: `*` matches any run of characters
not containing `/`; other characters match literally. -/
def globMatch : List Char → List Char → Bool
  | [], s => s.isEmpty
  | '*' :: ps, s => (noSlashSuffixes s).any (fun r => globMatch ps r)
  | _ :: _, [] => false
  | c :: ps, x :: s => decide (c = x) && globMatch ps s

/-- A geographic bounding box (west, south, east, north), with rational
coordinates. -/
structure BBox where
  minX : ℚ
  minY : ℚ
  maxX : ℚ
  maxY : ℚ
deriving DecidableEq, Repr

/-- The smallest bounding box containing both arguments. -/
def BBox.union (a b : BBox) : BBox :=
  ⟨min a.minX b.minX, min a.minY b.minY, max a.maxX b.maxX, max a.maxY b.maxY⟩

/-- `o.covers i` states that bounding box `o` contains bounding box `i`. -/
def BBox.covers (o i : BBox) : Prop :=
  o.minX ≤ i.minX ∧ o.minY ≤ i.minY ∧ i.maxX ≤ o.maxX ∧ i.maxY ≤ o.maxY

instance (o i : BBox) : Decidable (o.covers i) := by
  unfold BBox.covers; infer_instance

/-- The raster tags embedded in a GeoTIFF file (read by rasterio/GDAL in the
real tool); the pipeline only consumes the bounding box for the claims at
hand, so only that is modelled. -/
structure RasterTags where
  bbox : BBox
deriving DecidableEq, Repr

/-- A GeoTIFF file of the input directory: its path together with the raster
tags embedded in the file.  File-system reading is embedded as data. -/
structure GeoTiffFile where
  path : String
  tags : RasterTags
deriving DecidableEq, Repr

/-- A provider entry of the collection configuration (`ProviderModel`). -/
structure Provider where
  name : String
  roles : List String
  url : String
deriving DecidableEq, Repr

/-- One band description inside an asset definition (`eo_bands`). -/
structure EOBand where
  bandName : String
  bandDescription : String
deriving DecidableEq, Repr

/-- An asset definition of the `item_assets` configuration (`AssetConfig`). -/
structure AssetConfig where
  title : String
  description : String
  eo_bands : List EOBand
deriving DecidableEq, Repr

/-- Modelled from the spec: the `overrides` post-processing configuration
("This dictionary allows us to fill in or overwrite some fields with values
that we just want to give a fixed value. This is done at the very end of the
process in a post-processing step.").  The shipped Landsat NDWI configuration
overrides `extent/spatial/bbox`, which is the override path modelled here. -/
structure Overrides where
  extentBbox : Option BBox
deriving DecidableEq, Repr

/-- The dataset collection configuration (`CollectionConfig` of
`stacbuilder/config.py`), as documented in the configuration template. -/
structure CollectionConfig where
  collection_id : String
  title : String
  description : String
  keywords : List String
  providers : List Provider
  license : String
  layout_strategy_item_template : String
  input_path_parser_cfg : ParserConfig
  item_assets : List (String × AssetConfig)
  overrides : Overrides

/-- Metadata for one asset (one GeoTIFF file), as produced by
`MapGeoTiffToAssetMetadata`: the file reference, the asset type (band name),
the id of the STAC item the asset belongs to, the datetime derived from the
parsed path fields and the bounding box read from the raster tags. -/
structure AssetMetadata where
  href : String
  asset_type : String
  item_id : String
  datetime : Nat
  bbox : BBox
deriving DecidableEq, Repr

/-- A STAC asset: a single file referenced by a STAC item. -/
structure StacAsset where
  href : String
  asset_type : String
deriving DecidableEq, Repr

/-- A STAC item: groups one or more assets, with the spatiotemporal extent
they share. -/
structure StacItem where
  id : String
  assets : List StacAsset
  bbox : BBox
  dtStart : Nat
  dtEnd : Nat
deriving DecidableEq, Repr

/-- A STAC collection: the shared metadata of its items (providers, license)
together with the spatial and temporal extent and the grouped items. -/
structure Collection where
  id : String
  providers : List Provider
  license : String
  bbox : BBox
  dtStart : Nat
  dtEnd : Nat
  items : List StacItem
deriving DecidableEq, Repr

/-- Modelled from the spec: the identifier of the STAC item a parsed file
belongs to.  When the pattern has an `item_id` capture group (as the MODIS
configuration does) that value is used; otherwise the item id is assembled
from all parsed fields except the asset type, so that the files that differ
only in band/asset type are grouped into the same item. -/
def itemIdOf (b : Bindings) : String :=
  match b.lookup "item_id" with
  | some v => v
  | none =>
      String.intercalate "_"
        ((b.filter (fun kv => kv.1 != "asset_type")).map (fun kv => kv.2))

/-- Modelled from the spec: `MapGeoTiffToAssetMetadata` — regex-parse the
file path into field values, read the raster tags embedded in the file, and
map the extracted fields into asset metadata.  A file whose path does not
match the configured regular expression, or whose fields do not determine an
asset type and datetime, yields no metadata (it is a failed file). -/
def make_asset_metadata (cfg : CollectionConfig) (f : GeoTiffFile) :
    Option AssetMetadata :=
  match DefaultInputPathParser.parse cfg.input_path_parser_cfg f.path with
  | none => none
  | some b =>
      match b.lookup "asset_type",
            deriveDatetime cfg.input_path_parser_cfg.period b with
      | some atype, some dt =>
          some ⟨f.path, atype, itemIdOf b, dt, f.tags.bbox⟩
      | _, _ => none

/-- Modelled from the spec: select the GeoTIFF files of the input directory
with the glob pattern. -/
def glob_files (dir : List GeoTiffFile) (glob : String) : List GeoTiffFile :=
  dir.filter (fun f => globMatch glob.toList f.path.toList)

/-- Apply the optional `max_files` limit: `none` processes every matched
file, `some n` stops after the first `n` matched files. -/
def applyMaxFiles : Option Nat → List GeoTiffFile → List GeoTiffFile
  | none, l => l
  | some n, l => l.take n

/-- Translation of the command line `--max-files` value (default `-1` in the
shipped Makefiles, meaning: ignore the option and process all files). -/
def cliMaxFiles (m : Int) : Option Nat :=
  if m < 0 then none else some m.toNat

/-- Modelled from the spec: `list_input_files(glob, input_dir, max_files)` —
glob the input directory and optionally stop after `max_files` files. -/
def list_input_files (dir : List GeoTiffFile) (glob : String)
    (max_files : Option Nat) : List GeoTiffFile :=
  applyMaxFiles max_files (glob_files dir glob)

/-- Modelled from the spec: the metadata-collection loop — one pass over the
input files; each file either yields asset metadata or is recorded in the
failed-files list without aborting the run. -/
def collect_metadata (cfg : CollectionConfig) :
    List GeoTiffFile → List AssetMetadata × List String
  | [] => ([], [])
  | f :: fs =>
      let r := collect_metadata cfg fs
      match make_asset_metadata cfg f with
      | some m => (m :: r.1, r.2)
      | none => (r.1, f.path :: r.2)

/-- Modelled from the spec: `list_asset_metadata` — asset metadata for each
selected input file (together with the failed files, which the notebook
workflow discards for this command). -/
def list_asset_metadata (cfg : CollectionConfig) (dir : List GeoTiffFile)
    (glob : String) (max_files : Option Nat) :
    List AssetMetadata × List String :=
  collect_metadata cfg (list_input_files dir glob max_files)

/-- Insert one element into grouped association lists, keyed by `key`:
appended to its group when the key is present, opening a new group
otherwise. -/
def addToGroups (key : α → String) (m : α) :
    List (String × List α) → List (String × List α)
  | [] => [(key m, [m])]
  | (k, g) :: rest =>
      if k = key m then (k, m :: g) :: rest
      else (k, g) :: addToGroups key m rest

/-- Group a list by a string key, preserving the elements. -/
def groupListBy (key : α → String) : List α → List (String × List α)
  | [] => []
  | m :: ms => addToGroups key m (groupListBy key ms)

/-- The asset record produced from one asset metadata entry. -/
def toStacAsset (m : AssetMetadata) : StacAsset := ⟨m.href, m.asset_type⟩

/-- The smallest bounding box containing `f x` for every `x` of the list
(degenerate box for the empty list). -/
def hullBBox (f : α → BBox) : List α → BBox
  | [] => ⟨0, 0, 0, 0⟩
  | x :: rest => rest.foldl (fun acc y => acc.union (f y)) (f x)

/-- The minimum of `f` over the list (`0` for the empty list). -/
def minFold (f : α → Nat) : List α → Nat
  | [] => 0
  | x :: rest => rest.foldl (fun acc y => min acc (f y)) (f x)

/-- The maximum of `f` over the list (`0` for the empty list). -/
def maxFold (f : α → Nat) : List α → Nat
  | [] => 0
  | x :: rest => rest.foldl (fun acc y => max acc (f y)) (f x)

/-- Modelled from the spec: `MapMetadataToSTACItem` finalises one group of
asset metadata sharing an item id into a STAC item: the item references one
asset per metadata entry and carries the spatiotemporal extent shared by the
grouped assets. -/
def mkItemCore (k : String) (g : List AssetMetadata) : StacItem :=
  ⟨k, g.map toStacAsset, hullBBox (fun m => m.bbox) g,
    minFold (fun m => m.datetime) g, maxFold (fun m => m.datetime) g⟩

/-- Apply the optional user-supplied item postprocessor. -/
def applyPost : Option (StacItem → StacItem) → StacItem → StacItem
  | none, it => it
  | some f, it => f it

/-- Modelled from the spec: group the asset metadata by item id and map each
group to a STAC item, applying the optional `item_postprocessor` to each
generated item. -/
def make_stac_items (post : Option (StacItem → StacItem))
    (metas : List AssetMetadata) : List StacItem :=
  (groupListBy (fun m => m.item_id) metas).map
    (fun kg => applyPost post (mkItemCore kg.1 kg.2))

/-- Modelled from the spec: `list_stac_items` — returns the pair of the STAC
items of all successfully processed files and the list of failed files. -/
def list_stac_items (cfg : CollectionConfig) (dir : List GeoTiffFile)
    (glob : String) (max_files : Option Nat)
    (post : Option (StacItem → StacItem)) : List StacItem × List String :=
  let r := list_asset_metadata cfg dir glob max_files
  (make_stac_items post r.1, r.2)

/-- Modelled from the spec: the overrides post-processing step, applied at
the very end of the collection build; an `extent/spatial/bbox` override
replaces the computed spatial extent with the configured fixed value. -/
def apply_overrides (o : Overrides) (c : Collection) : Collection :=
  match o.extentBbox with
  | none => c
  | some b => { c with bbox := b }

/-- Modelled from the spec: `STACCollectionBuilder` — build the collection
carrying the configured providers and license, with the spatial and temporal
extent computed from the grouped items, then apply the configured
overrides. -/
def make_collection (cfg : CollectionConfig) (items : List StacItem) :
    Collection :=
  apply_overrides cfg.overrides
    ⟨cfg.collection_id, cfg.providers, cfg.license,
      hullBBox (fun it => it.bbox) items,
      minFold (fun it => it.dtStart) items,
      maxFold (fun it => it.dtEnd) items,
      items⟩

/-- The year an item belongs to (used to group large collections per
year). -/
def year_of (it : StacItem) : Nat := it.dtStart / 10000

/-- Modelled from the spec: `build-grouped-collections` — group the items
per year into sub-collections under a root collection whose extent is
computed from the sub-collections; the root holds no items itself. -/
def make_grouped_collections (cfg : CollectionConfig)
    (items : List StacItem) : Collection × List Collection :=
  let subs :=
    (groupListBy (fun it => toString (year_of it)) items).map
      (fun kg =>
        (⟨cfg.collection_id ++ "_" ++ kg.1, cfg.providers, cfg.license,
          hullBBox (fun it => it.bbox) kg.2,
          minFold (fun it => it.dtStart) kg.2,
          maxFold (fun it => it.dtEnd) kg.2, kg.2⟩ : Collection))
  let root :=
    apply_overrides cfg.overrides
      ⟨cfg.collection_id, cfg.providers, cfg.license,
        hullBBox (fun c => c.bbox) subs,
        minFold (fun c => c.dtStart) subs,
        maxFold (fun c => c.dtEnd) subs, []⟩
  (root, subs)

/-- A document serialized to the output directory. -/
inductive DiskDoc where
  | coll (c : Collection)
  | item (it : StacItem)
deriving DecidableEq, Repr

/-- The serialized output directory: file name to serialized document. -/
abbrev Disk := List (String × DiskDoc)

/-- Modelled from the spec: serialize the collection and its items to disk
as `collection.json` plus one JSON file per item. -/
def save_collection (c : Collection) : Disk :=
  ("collection.json", DiskDoc.coll c) ::
    c.items.map (fun it => (it.id ++ ".json", DiskDoc.item it))

/-- Modelled from the spec: the structural collection check run by
`validate_collection` (the real tool delegates schema validation to
pystac/stac-validator); modelled as requiring a non-empty collection id. -/
def is_valid_collection (c : Collection) : Bool := c.id != ""

/-- Modelled from the spec: `validate_collection(collection_file)` — read
the named collection file from the output directory and validate it. -/
def validate_collection (d : Disk) : Bool :=
  match d.lookup "collection.json" with
  | some (DiskDoc.coll c) => is_valid_collection c
  | _ => false

/-- The observable stages of the ETL pipeline, used to state ordering
claims: globbing, per-file path parsing, per-file raster-tag reading,
per-file field mapping, serialization and validation. -/
inductive ETLStep where
  | glob
  | parse (path : String)
  | readTags (path : String)
  | mapFields (path : String)
  | serialize
  | validate
deriving DecidableEq, Repr

/-- The stage events one input file goes through inside the metadata
collection: regex-parse the path, read the embedded raster tags, map the
extracted fields. -/
def processFileEvents (f : GeoTiffFile) : List ETLStep :=
  [ETLStep.parse f.path, ETLStep.readTags f.path, ETLStep.mapFields f.path]

/-- The metadata-collection loop instrumented with its stage events. -/
def collect_metadata_ev (cfg : CollectionConfig) :
    List GeoTiffFile → (List AssetMetadata × List String) × List ETLStep
  | [] => (([], []), [])
  | f :: fs =>
      let r := collect_metadata_ev cfg fs
      match make_asset_metadata cfg f with
      | some m => ((m :: r.1.1, r.1.2), processFileEvents f ++ r.2)
      | none => ((r.1.1, f.path :: r.1.2), processFileEvents f ++ r.2)

/-- Modelled from the spec: `build_collection` — glob the input directory,
collect the asset metadata file by file, group it into STAC items, build the
collection and serialize it to disk; paired with the stage events the run
performs, in execution order. -/
def build_collection_run (cfg : CollectionConfig) (dir : List GeoTiffFile)
    (glob : String) (max_files : Option Nat)
    (post : Option (StacItem → StacItem)) : Disk × List ETLStep :=
  let files := list_input_files dir glob max_files
  let r := collect_metadata_ev cfg files
  let items := make_stac_items post r.1.1
  let c := make_collection cfg items
  (save_collection c, ETLStep.glob :: r.2 ++ [ETLStep.serialize])

/-- Modelled from the spec: the serialized output of `build_collection`. -/
def build_collection (cfg : CollectionConfig) (dir : List GeoTiffFile)
    (glob : String) (max_files : Option Nat)
    (post : Option (StacItem → StacItem)) : Disk :=
  (build_collection_run cfg dir glob max_files post).1

/-- The workflow of the shipped notebook and Makefiles: `build_collection`
into the output directory, then `validate_collection` on the
`collection.json` file written there. -/
def run_workflow (cfg : CollectionConfig) (dir : List GeoTiffFile)
    (glob : String) (max_files : Option Nat)
    (post : Option (StacItem → StacItem)) : Bool × List ETLStep :=
  let br := build_collection_run cfg dir glob max_files post
  (validate_collection br.1, br.2 ++ [ETLStep.validate])

/-- `stepPrecedes a b tr`: some occurrence of `a` comes strictly before some
occurrence of `b` in the trace `tr`. -/
def stepPrecedes (a b : ETLStep) (tr : List ETLStep) : Prop :=
  ∃ i : Fin tr.length, ∃ j : Fin tr.length,
    (i : Nat) < (j : Nat) ∧ tr.get i = a ∧ tr.get j = b

instance (a b : ETLStep) (tr : List ETLStep) :
    Decidable (stepPrecedes a b tr) := by
  unfold stepPrecedes; infer_instance

/-- The limit on concurrently pending futures during metadata collection
(CHANGELOG 1.0.1: "Limit the number of concurrent futures to avoid memory
issues during metadata collection. Current setting is 1000."). -/
def CONCURRENT_FUTURES_LIMIT : Nat := 1000

/-- Modelled from the spec: the state of the bounded worker pool used for
I/O parallelism during metadata collection — the number of pending futures,
the files not yet submitted and the files completed. -/
structure PoolState where
  pending : Nat
  remaining : List String
  completed : List String
deriving DecidableEq, Repr

/-- Modelled from the spec: one step of the bounded worker pool — a new
future is submitted only while fewer than `CONCURRENT_FUTURES_LIMIT` are
pending; otherwise a pending future is drained first. -/
inductive poolStep : PoolState → PoolState → Prop where
  | submit (p : Nat) (f : String) (rest done : List String) :
      p < CONCURRENT_FUTURES_LIMIT →
      poolStep ⟨p, f :: rest, done⟩ ⟨p + 1, rest, done⟩
  | complete (p : Nat) (rem done : List String) (f : String) :
      poolStep ⟨p + 1, rem, done⟩ ⟨p, rem, f :: done⟩

/-- The initial pool state: nothing submitted, nothing completed. -/
def poolInit (files : List String) : PoolState := ⟨0, files, []⟩

/-- A literal character sequence as regex elements. -/
def lits (s : String) : List RElem := s.toList.map RElem.lit

/-- The regular expression of the shipped Landsat NDWI configuration:
`.*NDWI_(?P<year>\d{4})_(?P<tile_row>\d+)_(?P<tile_col>\d+).tif$`. -/
def landsat_regex : List RElem :=
  [RElem.anyStar] ++ lits "NDWI_" ++
    [RElem.group "year" [RElem.digitsExact 4]] ++ lits "_" ++
    [RElem.group "tile_row" [RElem.digitsPlus]] ++ lits "_" ++
    [RElem.group "tile_col" [RElem.digitsPlus], RElem.dot] ++ lits "tif"

/-- The path parser of the shipped Landsat NDWI configuration
(`LandsatNDWIInputPathParser`): the regular expression above with the fixed
value `asset_type = NDWI` and a yearly period. -/
def landsat_parser_cfg : ParserConfig :=
  ⟨landsat_regex, Period.yearly, [("asset_type", "NDWI")]⟩

/-- The shipped `Landsat_three-annual_NDWI_v1` collection configuration
(without its extent override). -/
def landsat_config : CollectionConfig :=
  ⟨"Landsat_three-annual_NDWI_v1", "Landsat_three-annual_NDWI_v1",
    "Landsat three-annual NDWI v1", ["PEOPLE_EA"],
    [⟨"VITO", ["licensor", "processor", "producer"], "https://www.vito.be/"⟩],
    "proprietary", "${collection}/${year}", landsat_parser_cfg,
    [("NDWI", ⟨"Landsat NDWI", "Landsat NDWI", [⟨"NDWI", "NDWI"⟩]⟩)],
    ⟨none⟩⟩

/-- The shipped Landsat NDWI configuration with its `extent/spatial/bbox`
override (scaled-down box for concrete evaluation). -/
def landsat_config_override : CollectionConfig :=
  { landsat_config with overrides := ⟨some ⟨0, 0, 1, 1⟩⟩ }

/-- A concrete input directory with two Landsat NDWI tiles and one unrelated
text file. -/
def demo_dir : List GeoTiffFile :=
  [⟨"tiles/NDWI_2020_001_002.tif", ⟨⟨0, 0, 2, 2⟩⟩⟩,
   ⟨"tiles/NDWI_2021_003_004.tif", ⟨⟨1, 1, 5, 5⟩⟩⟩,
   ⟨"tiles/readme.txt", ⟨⟨0, 0, 0, 0⟩⟩⟩]

/-- A concrete input directory whose only globbed file does not match the
configured regular expression. -/
def demo_dir_bad : List GeoTiffFile :=
  [⟨"tiles/BAD.tif", ⟨⟨0, 0, 2, 2⟩⟩⟩]

/-- All assets referenced by the items of a collection. -/
def collAssets (c : Collection) : List StacAsset :=
  c.items.flatMap (fun it => it.assets)

theorem consumeSuffixes_suffix {s r : List Char} (h : r ∈ consumeSuffixes s) :
    r <:+ s := by
  induction s with
  | nil =>
      simp [consumeSuffixes] at h
      simp [h]
  | cons c t ih =>
      simp only [consumeSuffixes, List.mem_append, List.mem_singleton] at h
      rcases h with h | h
      · exact (ih h).trans (List.suffix_cons c t)
      · simp [h]

theorem takeDigitsExact_suffix :
    ∀ (n : Nat) (s r : List Char), takeDigitsExact n s = some r → r <:+ s
  | 0, s, r, h => by
      simp [takeDigitsExact] at h
      simp [h]
  | _ + 1, [], _, h => by
      simp [takeDigitsExact] at h
  | n + 1, c :: s, r, h => by
      simp only [takeDigitsExact] at h
      by_cases hd : c.isDigit
      · simp only [hd, if_true] at h
        exact (takeDigitsExact_suffix n s r h).trans (List.suffix_cons c s)
      · simp [hd] at h

theorem digitsPlusRems_suffix :
    ∀ (s r : List Char), r ∈ digitsPlusRems s → r <:+ s
  | [], _, h => by simp [digitsPlusRems] at h
  | c :: s, r, h => by
      simp only [digitsPlusRems] at h
      by_cases hd : c.isDigit
      · simp only [hd, if_true, List.mem_append, List.mem_singleton] at h
        rcases h with h | h
        · exact (digitsPlusRems_suffix s r h).trans (List.suffix_cons c s)
        · simp [h]
      · simp [hd] at h

mutual

theorem matchElem_sound (p : RElem) (s : List Char)
    (br : Bindings × List Char) (hbr : br ∈ matchElem p s) :
    br.2 <:+ s ∧
      ∀ kv ∈ br.1, kv.1 ∈ groupNamesElem p ∧ kv.2.toList <:+: s := by
  cases p with
  | lit c =>
      cases s with
      | nil => simp [matchElem] at hbr
      | cons x t =>
          simp only [matchElem] at hbr
          split at hbr
          · simp only [List.mem_singleton] at hbr
            subst hbr
            exact ⟨List.suffix_cons x t, by simp⟩
          · simp at hbr
  | dot =>
      cases s with
      | nil => simp [matchElem] at hbr
      | cons x t =>
          simp only [matchElem, List.mem_singleton] at hbr
          subst hbr
          exact ⟨List.suffix_cons x t, by simp⟩
  | anyStar =>
      simp only [matchElem, List.mem_map] at hbr
      obtain ⟨r, hr, heq⟩ := hbr
      subst heq
      exact ⟨consumeSuffixes_suffix hr, by simp⟩
  | digitsExact n =>
      simp only [matchElem] at hbr
      split at hbr
      · simp at hbr
      · next r heq =>
          simp only [List.mem_singleton] at hbr
          subst hbr
          exact ⟨takeDigitsExact_suffix n s r heq, by simp⟩
  | digitsPlus =>
      simp only [matchElem, List.mem_map] at hbr
      obtain ⟨r, hr, heq⟩ := hbr
      subst heq
      exact ⟨digitsPlusRems_suffix s r hr, by simp⟩
  | group gname ps =>
      simp only [matchElem, List.mem_map] at hbr
      obtain ⟨br2, hbr2, heq⟩ := hbr
      have h2 := matchSeq_sound ps s br2 hbr2
      subst heq
      refine ⟨h2.1, ?_⟩
      intro kv hkv
      simp only [List.mem_cons] at hkv
      rcases hkv with hkv | hkv
      · subst hkv
        refine ⟨by simp [groupNamesElem], ?_⟩
        exact (List.take_prefix _ s).isInfix
      · obtain ⟨hname, hval⟩ := h2.2 kv hkv
        exact ⟨by simp [groupNamesElem, hname], hval⟩

theorem matchSeq_sound (ps : List RElem) (s : List Char)
    (br : Bindings × List Char) (hbr : br ∈ matchSeq ps s) :
    br.2 <:+ s ∧
      ∀ kv ∈ br.1, kv.1 ∈ groupNamesSeq ps ∧ kv.2.toList <:+: s := by
  cases ps with
  | nil =>
      simp only [matchSeq, List.mem_singleton] at hbr
      subst hbr
      exact ⟨List.suffix_refl s, by simp⟩
  | cons p ps =>
      simp only [matchSeq, List.mem_flatMap, List.mem_map] at hbr
      obtain ⟨br1, hbr1, br2, hbr2, heq⟩ := hbr
      have h1 := matchElem_sound p s br1 hbr1
      have h2 := matchSeq_sound ps br1.2 br2 hbr2
      subst heq
      refine ⟨h2.1.trans h1.1, ?_⟩
      intro kv hkv
      simp only [List.mem_append] at hkv
      rcases hkv with hkv | hkv
      · obtain ⟨hname, hval⟩ := h1.2 kv hkv
        exact ⟨by simp [groupNamesSeq, hname], hval⟩
      · obtain ⟨hname, hval⟩ := h2.2 kv hkv
        exact ⟨by simp [groupNamesSeq, hname], hval.trans h1.1.isInfix⟩

end

theorem reSearch_sound {ps : List RElem} {path : String} {g : Bindings}
    (h : reSearch ps path = some g) :
    ∀ kv ∈ g, kv.1 ∈ groupNamesSeq ps ∧ kv.2.toList <:+: path.toList := by
  unfold reSearch at h
  obtain ⟨br, hbr, hg⟩ := Option.map_eq_some'.1 h
  have hmem : br ∈ (matchSeq ps path.toList).filter (fun br => br.2.isEmpty) :=
    List.mem_of_mem_head? hbr
  have hmem2 := (List.mem_filter.1 hmem).1
  intro kv hkv
  exact (matchSeq_sound ps path.toList br hmem2).2 kv (hg ▸ hkv)

theorem collect_metadata_eq (cfg : CollectionConfig) (fs : List GeoTiffFile) :
    collect_metadata cfg fs =
      (fs.filterMap (make_asset_metadata cfg),
       (fs.filter (fun f => (make_asset_metadata cfg f).isNone)).map
         (fun f => f.path)) := by
  induction fs with
  | nil => simp [collect_metadata]
  | cons f fs ih =>
      cases hm : make_asset_metadata cfg f with
      | none =>
          simp [collect_metadata, hm, ih, List.filter_cons, List.filterMap_cons]
      | some m =>
          simp [collect_metadata, hm, ih, List.filter_cons, List.filterMap_cons]

theorem collect_metadata_ev_eq (cfg : CollectionConfig)
    (fs : List GeoTiffFile) :
    collect_metadata_ev cfg fs =
      (collect_metadata cfg fs, fs.flatMap processFileEvents) := by
  induction fs with
  | nil => simp [collect_metadata_ev, collect_metadata]
  | cons f fs ih =>
      cases hm : make_asset_metadata cfg f with
      | none => simp [collect_metadata_ev, collect_metadata, hm, ih]
      | some m => simp [collect_metadata_ev, collect_metadata, hm, ih]

theorem addToGroups_flat (key : α → String) (m : α)
    (gs : List (String × List α)) :
    List.Perm ((addToGroups key m gs).flatMap (fun kg => kg.2))
      (m :: gs.flatMap (fun kg => kg.2)) := by
  induction gs with
  | nil => simp [addToGroups]
  | cons kg0 rest ih =>
      obtain ⟨k, g⟩ := kg0
      simp only [addToGroups]
      split
      · simp
      · simp only [List.flatMap_cons]
        exact (ih.append_left g).trans List.perm_middle

theorem groupListBy_flat (key : α → String) (ms : List α) :
    List.Perm ((groupListBy key ms).flatMap (fun kg => kg.2)) ms := by
  induction ms with
  | nil => simp [groupListBy]
  | cons m t ih => exact (addToGroups_flat key m _).trans (ih.cons m)

theorem addToGroups_wf (key : α → String) (m : α)
    (gs : List (String × List α))
    (h : ∀ kg ∈ gs, kg.2 ≠ [] ∧ ∀ x ∈ kg.2, key x = kg.1) :
    ∀ kg ∈ addToGroups key m gs, kg.2 ≠ [] ∧ ∀ x ∈ kg.2, key x = kg.1 := by
  induction gs with
  | nil =>
      intro kg hkg
      simp only [addToGroups, List.mem_singleton] at hkg
      subst hkg
      refine ⟨by simp, ?_⟩
      intro x hx
      simp only [List.mem_singleton] at hx
      simp [hx]
  | cons kg0 rest ih =>
      obtain ⟨k, g⟩ := kg0
      intro kg hkg
      simp only [addToGroups] at hkg
      split at hkg
      · next hk =>
          simp only [List.mem_cons] at hkg
          rcases hkg with rfl | hkg
          · have h0 := h (k, g) (by simp)
            refine ⟨by simp, ?_⟩
            intro x hx
            simp only [List.mem_cons] at hx
            rcases hx with rfl | hx
            · exact hk.symm
            · exact h0.2 x hx
          · exact h kg (by simp [hkg])
      · simp only [List.mem_cons] at hkg
        rcases hkg with rfl | hkg
        · exact h (k, g) (by simp)
        · exact ih (fun kg2 hkg2 => h kg2 (by simp [hkg2])) kg hkg

theorem groupListBy_wf (key : α → String) (ms : List α) :
    ∀ kg ∈ groupListBy key ms, kg.2 ≠ [] ∧ ∀ x ∈ kg.2, key x = kg.1 := by
  induction ms with
  | nil => simp [groupListBy]
  | cons m t ih => exact addToGroups_wf key m _ ih

theorem addToGroups_keys_sub (key : α → String) (m : α)
    (gs : List (String × List α)) :
    ∀ k ∈ (addToGroups key m gs).map (fun kg => kg.1),
      k = key m ∨ k ∈ gs.map (fun kg => kg.1) := by
  induction gs with
  | nil =>
      intro k hk
      simp only [addToGroups, List.map_cons, List.map_nil,
        List.mem_singleton] at hk
      exact Or.inl hk
  | cons kg0 rest ih =>
      obtain ⟨k0, g⟩ := kg0
      intro k hk
      simp only [addToGroups] at hk
      split at hk
      · simp only [List.map_cons, List.mem_cons] at hk
        rcases hk with rfl | hk
        · exact Or.inr (by simp)
        · exact Or.inr (by simp [hk])
      · simp only [List.map_cons, List.mem_cons] at hk
        rcases hk with rfl | hk
        · exact Or.inr (by simp)
        · rcases ih k hk with h | h
          · exact Or.inl h
          · exact Or.inr (by simp [h])

theorem addToGroups_keys_nodup (key : α → String) (m : α)
    (gs : List (String × List α))
    (h : (gs.map (fun kg => kg.1)).Nodup) :
    ((addToGroups key m gs).map (fun kg => kg.1)).Nodup := by
  induction gs with
  | nil => simp [addToGroups]
  | cons kg0 rest ih =>
      obtain ⟨k0, g⟩ := kg0
      simp only [List.map_cons, List.nodup_cons] at h
      simp only [addToGroups]
      split
      · next hk =>
          simp only [List.map_cons, List.nodup_cons]
          exact ⟨h.1, h.2⟩
      · next hk =>
          simp only [List.map_cons, List.nodup_cons]
          refine ⟨?_, ih h.2⟩
          intro hmem
          rcases addToGroups_keys_sub key m rest k0 hmem with h0 | h0
          · exact hk h0
          · exact h.1 h0

theorem groupListBy_keys_nodup (key : α → String) (ms : List α) :
    ((groupListBy key ms).map (fun kg => kg.1)).Nodup := by
  induction ms with
  | nil => simp [groupListBy]
  | cons m t ih => exact addToGroups_keys_nodup key m _ ih

theorem groupListBy_complete (key : α → String) (ms : List α) :
    ∀ kg ∈ groupListBy key ms, ∀ x ∈ ms, key x = kg.1 → x ∈ kg.2 := by
  intro kg hkg x hx hkey
  have hx2 : x ∈ (groupListBy key ms).flatMap (fun kg => kg.2) :=
    (groupListBy_flat key ms).mem_iff.2 hx
  obtain ⟨kg2, hkg2, hxkg2⟩ := List.mem_flatMap.1 hx2
  have hkey2 := (groupListBy_wf key ms kg2 hkg2).2 x hxkg2
  have : kg = kg2 :=
    List.inj_on_of_nodup_map (groupListBy_keys_nodup key ms) hkg hkg2
      (by rw [← hkey, hkey2])
  exact this ▸ hxkg2

theorem BBox.covers_refl (b : BBox) : b.covers b :=
  ⟨le_refl _, le_refl _, le_refl _, le_refl _⟩

theorem BBox.union_covers_left (a b : BBox) : (a.union b).covers a :=
  ⟨min_le_left _ _, min_le_left _ _, le_max_left _ _, le_max_left _ _⟩

theorem BBox.union_covers_right (a b : BBox) : (a.union b).covers b :=
  ⟨min_le_right _ _, min_le_right _ _, le_max_right _ _, le_max_right _ _⟩

theorem BBox.covers_trans {a b c : BBox} (h1 : a.covers b) (h2 : b.covers c) :
    a.covers c :=
  ⟨le_trans h1.1 h2.1, le_trans h1.2.1 h2.2.1,
    le_trans h2.2.2.1 h1.2.2.1, le_trans h2.2.2.2 h1.2.2.2⟩

theorem foldl_union_covers (f : α → BBox) (l : List α) (b : BBox) :
    (l.foldl (fun acc y => acc.union (f y)) b).covers b ∧
      ∀ x ∈ l, (l.foldl (fun acc y => acc.union (f y)) b).covers (f x) := by
  induction l generalizing b with
  | nil => exact ⟨BBox.covers_refl b, by simp⟩
  | cons x t ih =>
      have ih2 := ih (b.union (f x))
      constructor
      · exact BBox.covers_trans ih2.1 (BBox.union_covers_left b (f x))
      · intro y hy
        simp only [List.mem_cons] at hy
        rcases hy with rfl | hy
        · exact BBox.covers_trans ih2.1 (BBox.union_covers_right b (f y))
        · exact ih2.2 y hy

theorem hullBBox_covers (f : α → BBox) (l : List α) :
    ∀ x ∈ l, (hullBBox f l).covers (f x) := by
  cases l with
  | nil => simp
  | cons x0 t =>
      intro x hx
      simp only [List.mem_cons] at hx
      have h := foldl_union_covers f t (f x0)
      rcases hx with rfl | hx
      · exact h.1
      · exact h.2 x hx

theorem foldl_min_le (f : α → Nat) (l : List α) (b : Nat) :
    (l.foldl (fun acc y => min acc (f y)) b) ≤ b ∧
      ∀ x ∈ l, (l.foldl (fun acc y => min acc (f y)) b) ≤ f x := by
  induction l generalizing b with
  | nil => exact ⟨le_refl b, by simp⟩
  | cons x t ih =>
      have ih2 := ih (min b (f x))
      constructor
      · exact le_trans ih2.1 (min_le_left _ _)
      · intro y hy
        simp only [List.mem_cons] at hy
        rcases hy with rfl | hy
        · exact le_trans ih2.1 (min_le_right _ _)
        · exact ih2.2 y hy

theorem foldl_max_ge (f : α → Nat) (l : List α) (b : Nat) :
    b ≤ (l.foldl (fun acc y => max acc (f y)) b) ∧
      ∀ x ∈ l, f x ≤ (l.foldl (fun acc y => max acc (f y)) b) := by
  induction l generalizing b with
  | nil => exact ⟨le_refl b, by simp⟩
  | cons x t ih =>
      have ih2 := ih (max b (f x))
      constructor
      · exact le_trans (le_max_left _ _) ih2.1
      · intro y hy
        simp only [List.mem_cons] at hy
        rcases hy with rfl | hy
        · exact le_trans (le_max_right _ _) ih2.1
        · exact ih2.2 y hy

theorem minFold_le (f : α → Nat) (l : List α) :
    ∀ x ∈ l, minFold f l ≤ f x := by
  cases l with
  | nil => simp
  | cons x0 t =>
      intro x hx
      simp only [List.mem_cons] at hx
      have h := foldl_min_le f t (f x0)
      rcases hx with rfl | hx
      · exact h.1
      · exact h.2 x hx

theorem maxFold_ge (f : α → Nat) (l : List α) :
    ∀ x ∈ l, f x ≤ maxFold f l := by
  cases l with
  | nil => simp
  | cons x0 t =>
      intro x hx
      simp only [List.mem_cons] at hx
      have h := foldl_max_ge f t (f x0)
      rcases hx with rfl | hx
      · exact h.1
      · exact h.2 x hx

theorem make_asset_metadata_href {cfg : CollectionConfig} {f : GeoTiffFile}
    {m : AssetMetadata} (h : make_asset_metadata cfg f = some m) :
    m.href = f.path := by
  unfold make_asset_metadata at h
  split at h
  · exact absurd h (by simp)
  · split at h
    · simp only [Option.some.injEq] at h
      subst h
      rfl
    · exact absurd h (by simp)

theorem filterMap_metadata_hrefs (cfg : CollectionConfig)
    (fs : List GeoTiffFile) :
    ((fs.filterMap (make_asset_metadata cfg)).map (fun m => m.href)) =
      (fs.filter (fun f => (make_asset_metadata cfg f).isSome)).map
        (fun f => f.path) := by
  induction fs with
  | nil => simp
  | cons f fs ih =>
      cases hm : make_asset_metadata cfg f with
      | none => simp [List.filterMap_cons, List.filter_cons, hm, ih]
      | some m =>
          simp [List.filterMap_cons, List.filter_cons, hm, ih,
            make_asset_metadata_href hm]

theorem apply_overrides_items (o : Overrides) (c : Collection) :
    (apply_overrides o c).items = c.items := by
  unfold apply_overrides
  split <;> rfl

theorem apply_overrides_providers (o : Overrides) (c : Collection) :
    (apply_overrides o c).providers = c.providers := by
  unfold apply_overrides
  split <;> rfl

theorem apply_overrides_license (o : Overrides) (c : Collection) :
    (apply_overrides o c).license = c.license := by
  unfold apply_overrides
  split <;> rfl

theorem stepPrecedes_cons {a b x : ETLStep} {tr : List ETLStep}
    (h : stepPrecedes a b tr) : stepPrecedes a b (x :: tr) := by
  obtain ⟨i, j, hij, ha, hb⟩ := h
  refine ⟨⟨i.1 + 1, Nat.succ_lt_succ i.2⟩,
    ⟨j.1 + 1, Nat.succ_lt_succ j.2⟩,
    Nat.succ_lt_succ hij, ?_, ?_⟩
  · simpa [List.get_eq_getElem] using ha
  · simpa [List.get_eq_getElem] using hb

theorem pre_serialize_validate (L : List ETLStep) :
    stepPrecedes ETLStep.serialize ETLStep.validate
      (L ++ [ETLStep.serialize, ETLStep.validate]) := by
  induction L with
  | nil => decide
  | cons x t ih => exact stepPrecedes_cons ih

theorem count_parse_flatMap (p : String) (fs : List GeoTiffFile) :
    ((fs.flatMap processFileEvents).count (ETLStep.parse p)) =
      ((fs.map (fun f => f.path)).count p) := by
  induction fs with
  | nil => simp
  | cons f fs ih =>
      simp only [List.flatMap_cons, List.count_append, processFileEvents,
        List.map_cons, ih]
      by_cases hp : f.path = p
      · simp [hp, List.count_cons]
        omega
      · simp [List.count_cons, hp]

/-- C1: building a collection applies the sequential ETL steps in this order
and no other: glob the input directory to select the GeoTIFF files, then per
selected file regex-parse the path into field values, read the raster tags
embedded in the file and map the extracted fields through the collection
configuration, and finally serialize the resulting collection and items to
disk.  The stage-event trace of a `build_collection` run is exactly the glob
event, the per-file parse/read-tags/map-fields events of the selected files
in order, and the final serialize event; and the serialized output is
exactly the staged composition glob → metadata collection → item mapping →
collection building → serialization. -/
theorem c1_build_collection_etl_order (cfg : CollectionConfig)
    (dir : List GeoTiffFile) (glob : String) (max_files : Option Nat)
    (post : Option (StacItem → StacItem)) :
    (build_collection_run cfg dir glob max_files post).2 =
      ETLStep.glob ::
        (list_input_files dir glob max_files).flatMap processFileEvents ++
        [ETLStep.serialize] ∧
    build_collection cfg dir glob max_files post =
      save_collection (make_collection cfg (make_stac_items post
        (collect_metadata cfg (list_input_files dir glob max_files)).1)) := by
  unfold build_collection build_collection_run
  simp [collect_metadata_ev_eq]

/-- C2 counterexample: the claim states that validation happens before
serialization; in the shipped workflow (notebook and Makefile) the
`validate` step runs on the `collection.json` file that `build_collection`
has already serialized, so on the concrete Landsat NDWI run no validate
event precedes the serialize event. -/
theorem c2_counterexample :
    ¬ stepPrecedes ETLStep.validate ETLStep.serialize
      ((run_workflow landsat_config demo_dir "*/*.tif" none none).2) := by
  decide

/-- C2 (amended): the metadata pipeline is a single-pass batch transform
bounded by the number of globbed files — each matched file is processed
exactly once — and the stages are applied in the order glob, then parse,
then serialize, then validate: validation happens after serialization, on
the serialized collection file. -/
theorem c2_amended_single_pass_order (cfg : CollectionConfig)
    (dir : List GeoTiffFile) (glob : String) (max_files : Option Nat)
    (post : Option (StacItem → StacItem)) :
    (run_workflow cfg dir glob max_files post).2 =
      ETLStep.glob ::
        (list_input_files dir glob max_files).flatMap processFileEvents ++
        [ETLStep.serialize, ETLStep.validate] ∧
    (∀ p : String,
      ((run_workflow cfg dir glob max_files post).2).count
          (ETLStep.parse p) =
        ((list_input_files dir glob max_files).map (fun f => f.path)).count
          p) ∧
    stepPrecedes ETLStep.serialize ETLStep.validate
      ((run_workflow cfg dir glob max_files post).2) := by
  have htr : (run_workflow cfg dir glob max_files post).2 =
      ETLStep.glob ::
        (list_input_files dir glob max_files).flatMap processFileEvents ++
        [ETLStep.serialize, ETLStep.validate] := by
    unfold run_workflow build_collection_run
    simp [collect_metadata_ev_eq]
  refine ⟨htr, ?_, ?_⟩
  · intro p
    rw [htr]
    simp only [List.count_cons, List.count_append]
    rw [count_parse_flatMap]
    simp
  · rw [htr]
    exact pre_serialize_validate
      (ETLStep.glob ::
        (list_input_files dir glob max_files).flatMap processFileEvents)

/-- C3: for every configured path parser and file path, the parser's output
field values are exactly those extracted from the path by the configured
regular expression's named capture groups plus the configured fixed values;
the extraction depends only on the path and the configuration, and a path
that does not match the regular expression yields no parsed field values.
Every parsed field value is either a configured fixed value or is named by a
capture group of the pattern and is a contiguous substring of the path. -/
theorem c3_path_parser_fields (cfg : ParserConfig) (path : String) :
    (reSearch cfg.regex path = none →
      DefaultInputPathParser.parse cfg path = none) ∧
    (∀ g, reSearch cfg.regex path = some g →
      DefaultInputPathParser.parse cfg path = some (g ++ cfg.fixed_values)) ∧
    (∀ b, DefaultInputPathParser.parse cfg path = some b →
      ∀ kv ∈ b, kv ∈ cfg.fixed_values ∨
        (kv.1 ∈ groupNamesSeq cfg.regex ∧ kv.2.toList <:+: path.toList)) := by
  refine ⟨?_, ?_, ?_⟩
  · intro h
    simp [DefaultInputPathParser.parse, h]
  · intro g h
    simp [DefaultInputPathParser.parse, h]
  · intro b hb kv hkv
    unfold DefaultInputPathParser.parse at hb
    cases hs : reSearch cfg.regex path with
    | none => simp [hs] at hb
    | some g =>
        simp only [hs, Option.map_some', Option.some.injEq] at hb
        subst hb
        rcases List.mem_append.1 hkv with hkv | hkv
        · exact Or.inr (reSearch_sound hs kv hkv)
        · exact Or.inl hkv

/-- C3 witness: the shipped Landsat NDWI parser on a concrete tile path
extracts exactly the year and tile coordinates from the named capture groups
plus the configured fixed `asset_type` value. -/
theorem c3_witness :
    DefaultInputPathParser.parse landsat_parser_cfg
        "tiles/NDWI_2020_001_002.tif" =
      some ([("year", "2020"), ("tile_row", "001"), ("tile_col", "002")] ++
        [("asset_type", "NDWI")]) :=
  (c3_path_parser_fields landsat_parser_cfg "tiles/NDWI_2020_001_002.tif").2.1
    [("year", "2020"), ("tile_row", "001"), ("tile_col", "002")] (by decide)

/-- C4: `list_stac_items` returns the pair of STAC items and failed files:
the items are exactly those generated from the successfully processed
selected files, the failed files are exactly the paths of the selected files
whose parsing or metadata extraction fails, and a failing file is recorded
in the failed list (it does not abort the run — the items of the other files
are still returned). -/
theorem c4_failed_files_partition (cfg : CollectionConfig)
    (dir : List GeoTiffFile) (glob : String) (max_files : Option Nat)
    (post : Option (StacItem → StacItem)) :
    (list_stac_items cfg dir glob max_files post).1 =
      make_stac_items post
        ((list_input_files dir glob max_files).filterMap
          (make_asset_metadata cfg)) ∧
    (list_stac_items cfg dir glob max_files post).2 =
      ((list_input_files dir glob max_files).filter
        (fun f => (make_asset_metadata cfg f).isNone)).map (fun f => f.path) ∧
    ∀ f ∈ list_input_files dir glob max_files,
      make_asset_metadata cfg f = none →
        f.path ∈ (list_stac_items cfg dir glob max_files post).2 := by
  have hbase : list_stac_items cfg dir glob max_files post =
      (make_stac_items post
        ((list_input_files dir glob max_files).filterMap
          (make_asset_metadata cfg)),
       ((list_input_files dir glob max_files).filter
        (fun f => (make_asset_metadata cfg f).isNone)).map
          (fun f => f.path)) := by
    unfold list_stac_items list_asset_metadata
    rw [collect_metadata_eq]
  refine ⟨by rw [hbase], by rw [hbase], ?_⟩
  intro f hf hnone
  rw [hbase]
  exact List.mem_map_of_mem _ (List.mem_filter.2 ⟨hf, by simp [hnone]⟩)

/-- C4 witness: on a concrete directory whose single globbed file does not
match the Landsat NDWI regular expression, the failed file is reported in
the failed-files list of `list_stac_items`. -/
theorem c4_witness :
    (⟨"tiles/BAD.tif", ⟨⟨0, 0, 2, 2⟩⟩⟩ : GeoTiffFile).path ∈
      (list_stac_items landsat_config demo_dir_bad "*/*.tif"
        none none).2 :=
  (c4_failed_files_partition landsat_config demo_dir_bad "*/*.tif"
      none none).2.2
    ⟨"tiles/BAD.tif", ⟨⟨0, 0, 2, 2⟩⟩⟩ (by decide) (by decide)

theorem make_collection_items (cfg : CollectionConfig)
    (items : List StacItem) : (make_collection cfg items).items = items := by
  unfold make_collection
  rw [apply_overrides_items]

theorem flatMap_map_snd (h : β → γ) (l : List (String × List β)) :
    l.flatMap (fun kg => kg.2.map h) = (l.flatMap (fun kg => kg.2)).map h := by
  induction l with
  | nil => simp
  | cons kg rest ih => simp [ih]

theorem flatMap_assets_of_map (l : List (String × List AssetMetadata)) :
    ((l.map (fun kg => mkItemCore kg.1 kg.2)).flatMap (fun it => it.assets)) =
      l.flatMap (fun kg => kg.2.map toStacAsset) := by
  induction l with
  | nil => simp
  | cons kg rest ih =>
      simp only [List.map_cons, List.flatMap_cons, ih]
      rfl

/-- C5 counterexample: the claim states that every file selected by the glob
becomes exactly one asset of the built collection; on a concrete directory
whose single globbed file does not match the configured regular expression,
the built collection contains no asset at all, so the selected file has no
corresponding asset. -/
theorem c5_counterexample :
    (glob_files demo_dir_bad "*/*.tif").length = 1 ∧
    ¬ ∀ f ∈ glob_files demo_dir_bad "*/*.tif",
        ∃ a ∈ collAssets (make_collection landsat_config
          (make_stac_items none
            (collect_metadata landsat_config
              (glob_files demo_dir_bad "*/*.tif")).1)),
          a.href = f.path := by
  decide

/-- C5 (amended): each GeoTIFF file selected by the glob whose metadata
extraction succeeds becomes exactly one asset of the built collection, that
asset references exactly that file, and (when the selected paths are
distinct) no file is referenced by two assets, so each such asset belongs to
exactly one STAC item: the asset hrefs of the built collection are a
permutation of the successfully processed selected file paths, they are
pairwise distinct, and `build_collection` serializes exactly this collection
as `collection.json`.  A selected file whose parsing fails yields no asset
(it is reported as a failed file instead). -/
theorem c5_amended_file_asset_bijection (cfg : CollectionConfig)
    (dir : List GeoTiffFile) (glob : String)
    (h : ((glob_files dir glob).map (fun f => f.path)).Nodup) :
    List.Perm
      ((collAssets (make_collection cfg (make_stac_items none
        (collect_metadata cfg (glob_files dir glob)).1))).map
        (fun a => a.href))
      (((glob_files dir glob).filter
        (fun f => (make_asset_metadata cfg f).isSome)).map (fun f => f.path)) ∧
    ((collAssets (make_collection cfg (make_stac_items none
        (collect_metadata cfg (glob_files dir glob)).1))).map
      (fun a => a.href)).Nodup ∧
    (build_collection cfg dir glob none none).lookup "collection.json" =
      some (DiskDoc.coll (make_collection cfg (make_stac_items none
        (collect_metadata cfg (glob_files dir glob)).1))) := by
  have hassets : collAssets (make_collection cfg (make_stac_items none
      (collect_metadata cfg (glob_files dir glob)).1)) =
      ((groupListBy (fun m => m.item_id)
        (collect_metadata cfg (glob_files dir glob)).1).flatMap
          (fun kg => kg.2)).map toStacAsset := by
    unfold collAssets
    rw [make_collection_items]
    simp only [make_stac_items, applyPost]
    rw [flatMap_assets_of_map, flatMap_map_snd]
  have hperm : List.Perm
      ((collAssets (make_collection cfg (make_stac_items none
        (collect_metadata cfg (glob_files dir glob)).1))).map
        (fun a => a.href))
      (((glob_files dir glob).filter
        (fun f => (make_asset_metadata cfg f).isSome)).map
        (fun f => f.path)) := by
    rw [hassets, List.map_map]
    have h1 := (groupListBy_flat (fun m : AssetMetadata => m.item_id)
      (collect_metadata cfg (glob_files dir glob)).1).map
      (fun m => m.href)
    have h2 : ((collect_metadata cfg (glob_files dir glob)).1).map
        (fun m => m.href) =
        ((glob_files dir glob).filter
          (fun f => (make_asset_metadata cfg f).isSome)).map
          (fun f => f.path) := by
      rw [collect_metadata_eq]
      exact filterMap_metadata_hrefs cfg (glob_files dir glob)
    rw [h2] at h1
    exact h1
  refine ⟨hperm, ?_, ?_⟩
  · have hsub : List.Sublist
        ((glob_files dir glob).filter
          (fun f => (make_asset_metadata cfg f).isSome))
        (glob_files dir glob) :=
      List.filter_sublist _
    have hok : (((glob_files dir glob).filter
        (fun f => (make_asset_metadata cfg f).isSome)).map
        (fun f => f.path)).Nodup :=
      h.sublist (hsub.map (fun f : GeoTiffFile => f.path))
    exact hperm.symm.nodup hok
  · unfold build_collection build_collection_run
    simp [collect_metadata_ev_eq, save_collection, List.lookup,
      list_input_files, applyMaxFiles]

/-- C5 witness: the file–asset correspondence instantiated on the concrete
Landsat NDWI demo directory, whose selected file paths are distinct. -/
theorem c5_witness :
    List.Perm
      ((collAssets (make_collection landsat_config (make_stac_items none
        (collect_metadata landsat_config
          (glob_files demo_dir "*/*.tif")).1))).map
        (fun a => a.href))
      (((glob_files demo_dir "*/*.tif").filter
        (fun f => (make_asset_metadata landsat_config f).isSome)).map
        (fun f => f.path)) ∧
    ((collAssets (make_collection landsat_config (make_stac_items none
        (collect_metadata landsat_config
          (glob_files demo_dir "*/*.tif")).1))).map
      (fun a => a.href)).Nodup ∧
    (build_collection landsat_config demo_dir "*/*.tif" none
        none).lookup "collection.json" =
      some (DiskDoc.coll (make_collection landsat_config (make_stac_items none
        (collect_metadata landsat_config
          (glob_files demo_dir "*/*.tif")).1))) :=
  c5_amended_file_asset_bijection landsat_config demo_dir "*/*.tif"
    (by decide)

/-- C6: every STAC item produced by the pipeline groups one or more assets
(no item with zero assets is ever produced), and all asset metadata grouped
into one item lies within that item's spatiotemporal extent: the item's
bounding box covers each grouped asset's bounding box and the item's
temporal interval contains each grouped asset's datetime. -/
theorem c6_items_group_shared_extent (cfg : CollectionConfig)
    (dir : List GeoTiffFile) (glob : String) (max_files : Option Nat) :
    ∀ it ∈ (list_stac_items cfg dir glob max_files none).1,
      it.assets ≠ [] ∧
      ∀ m ∈ (list_asset_metadata cfg dir glob max_files).1,
        m.item_id = it.id →
          it.bbox.covers m.bbox ∧ it.dtStart ≤ m.datetime ∧
            m.datetime ≤ it.dtEnd ∧ toStacAsset m ∈ it.assets := by
  intro it hit
  unfold list_stac_items at hit
  simp only [make_stac_items, applyPost, List.mem_map] at hit
  obtain ⟨kg, hkg, heq⟩ := hit
  have hwf := groupListBy_wf (fun m : AssetMetadata => m.item_id)
    (list_asset_metadata cfg dir glob max_files).1 kg hkg
  constructor
  · rw [← heq]
    simp only [mkItemCore, ne_eq, List.map_eq_nil_iff]
    exact hwf.1
  · intro m hm hid
    have hid2 : m.item_id = kg.1 := by
      rw [hid, ← heq]
      rfl
    have hmem : m ∈ kg.2 :=
      groupListBy_complete (fun m : AssetMetadata => m.item_id)
        (list_asset_metadata cfg dir glob max_files).1 kg hkg m hm hid2
    rw [← heq]
    exact ⟨hullBBox_covers _ kg.2 m hmem,
      minFold_le _ kg.2 m hmem,
      maxFold_ge _ kg.2 m hmem,
      List.mem_map_of_mem toStacAsset hmem⟩

set_option maxHeartbeats 2000000 in
/-- C6 witness: the concrete 2020 Landsat NDWI item produced from the demo
directory has a non-empty asset list, and the metadata entry grouped into it
lies within its extent. -/
theorem c6_witness :
    (⟨"2020_001_002",
        [⟨"tiles/NDWI_2020_001_002.tif", "NDWI"⟩],
        ⟨0, 0, 2, 2⟩, 20200101, 20200101⟩ : StacItem).assets ≠ [] ∧
    ∀ m ∈ (list_asset_metadata landsat_config demo_dir "*/*.tif"
        none).1,
      m.item_id = (⟨"2020_001_002",
          [⟨"tiles/NDWI_2020_001_002.tif", "NDWI"⟩],
          ⟨0, 0, 2, 2⟩, 20200101, 20200101⟩ : StacItem).id →
        (⟨"2020_001_002",
          [⟨"tiles/NDWI_2020_001_002.tif", "NDWI"⟩],
          ⟨0, 0, 2, 2⟩, 20200101, 20200101⟩ : StacItem).bbox.covers m.bbox ∧
        (⟨"2020_001_002",
          [⟨"tiles/NDWI_2020_001_002.tif", "NDWI"⟩],
          ⟨0, 0, 2, 2⟩, 20200101, 20200101⟩ : StacItem).dtStart ≤
            m.datetime ∧
        m.datetime ≤ (⟨"2020_001_002",
          [⟨"tiles/NDWI_2020_001_002.tif", "NDWI"⟩],
          ⟨0, 0, 2, 2⟩, 20200101, 20200101⟩ : StacItem).dtEnd ∧
        toStacAsset m ∈ (⟨"2020_001_002",
          [⟨"tiles/NDWI_2020_001_002.tif", "NDWI"⟩],
          ⟨0, 0, 2, 2⟩, 20200101, 20200101⟩ : StacItem).assets :=
  c6_items_group_shared_extent landsat_config demo_dir "*/*.tif" none
    ⟨"2020_001_002", [⟨"tiles/NDWI_2020_001_002.tif", "NDWI"⟩],
      ⟨0, 0, 2, 2⟩, 20200101, 20200101⟩ (by decide)

set_option maxHeartbeats 2000000 in
/-- C7 counterexample: the claim states the collection extent always covers
the extents of all grouped items; with the Landsat NDWI configuration's
`extent/spatial/bbox` override in place, the override replaces the computed
extent at the end of the build, and the resulting collection's bounding box
does not cover the bounding box of one of its items. -/
theorem c7_counterexample :
    ∃ it ∈ (make_collection landsat_config_override
        (list_stac_items landsat_config_override demo_dir "*/*.tif"
          none none).1).items,
      ¬ (make_collection landsat_config_override
        (list_stac_items landsat_config_override demo_dir "*/*.tif"
          none none).1).bbox.covers it.bbox := by
  decide

/-- C7 (amended): every collection built by the tool carries the configured
shared metadata of its items — providers and license — and, provided the
configuration does not override the spatial extent, its spatial and temporal
extent covers the extents of all grouped items, and the extent of the root
of a grouped collection covers the extents of all sub-collections (an
`extent/spatial/bbox` override instead replaces the spatial extent with the
configured fixed value). -/
theorem c7_amended_collection_extent (cfg : CollectionConfig)
    (items : List StacItem) (hov : cfg.overrides.extentBbox = none) :
    (make_collection cfg items).providers = cfg.providers ∧
    (make_collection cfg items).license = cfg.license ∧
    (make_collection cfg items).items = items ∧
    (∀ it ∈ items, (make_collection cfg items).bbox.covers it.bbox ∧
      (make_collection cfg items).dtStart ≤ it.dtStart ∧
      it.dtEnd ≤ (make_collection cfg items).dtEnd) ∧
    (∀ sub ∈ (make_grouped_collections cfg items).2,
      (make_grouped_collections cfg items).1.bbox.covers sub.bbox ∧
      (make_grouped_collections cfg items).1.dtStart ≤ sub.dtStart ∧
      sub.dtEnd ≤ (make_grouped_collections cfg items).1.dtEnd ∧
      sub.providers = cfg.providers ∧ sub.license = cfg.license) := by
  have hmk : make_collection cfg items =
      ⟨cfg.collection_id, cfg.providers, cfg.license,
        hullBBox (fun it => it.bbox) items,
        minFold (fun it => it.dtStart) items,
        maxFold (fun it => it.dtEnd) items, items⟩ := by
    unfold make_collection apply_overrides
    rw [hov]
  refine ⟨by rw [hmk], by rw [hmk], by rw [hmk], ?_, ?_⟩
  · intro it hit
    rw [hmk]
    exact ⟨hullBBox_covers _ items it hit,
      minFold_le _ items it hit,
      maxFold_ge _ items it hit⟩
  · intro sub hsub
    unfold make_grouped_collections at hsub ⊢
    simp only [apply_overrides, hov]
    refine ⟨hullBBox_covers _ _ sub hsub,
      minFold_le _ _ sub hsub,
      maxFold_ge _ _ sub hsub, ?_, ?_⟩
    · simp only [List.mem_map] at hsub
      obtain ⟨kg, _, heq⟩ := hsub
      rw [← heq]
    · simp only [List.mem_map] at hsub
      obtain ⟨kg, _, heq⟩ := hsub
      rw [← heq]

/-- C7 witness: the extent-coverage property instantiated on the Landsat
NDWI configuration (whose shipped override is not applied here) and the
items generated from the demo directory. -/
theorem c7_witness :
    (make_collection landsat_config
        (list_stac_items landsat_config demo_dir "*/*.tif"
          none none).1).providers = landsat_config.providers ∧
    (make_collection landsat_config
        (list_stac_items landsat_config demo_dir "*/*.tif"
          none none).1).license = landsat_config.license ∧
    (make_collection landsat_config
        (list_stac_items landsat_config demo_dir "*/*.tif"
          none none).1).items =
      (list_stac_items landsat_config demo_dir "*/*.tif" none none).1 ∧
    (∀ it ∈ (list_stac_items landsat_config demo_dir "*/*.tif"
        none none).1,
      (make_collection landsat_config
          (list_stac_items landsat_config demo_dir "*/*.tif"
            none none).1).bbox.covers it.bbox ∧
      (make_collection landsat_config
          (list_stac_items landsat_config demo_dir "*/*.tif"
            none none).1).dtStart ≤ it.dtStart ∧
      it.dtEnd ≤ (make_collection landsat_config
          (list_stac_items landsat_config demo_dir "*/*.tif"
            none none).1).dtEnd) ∧
    (∀ sub ∈ (make_grouped_collections landsat_config
        (list_stac_items landsat_config demo_dir "*/*.tif"
          none none).1).2,
      (make_grouped_collections landsat_config
          (list_stac_items landsat_config demo_dir "*/*.tif"
            none none).1).1.bbox.covers sub.bbox ∧
      (make_grouped_collections landsat_config
          (list_stac_items landsat_config demo_dir "*/*.tif"
            none none).1).1.dtStart ≤ sub.dtStart ∧
      sub.dtEnd ≤ (make_grouped_collections landsat_config
          (list_stac_items landsat_config demo_dir "*/*.tif"
            none none).1).1.dtEnd ∧
      sub.providers = landsat_config.providers ∧
      sub.license = landsat_config.license) :=
  c7_amended_collection_extent landsat_config
    (list_stac_items landsat_config demo_dir "*/*.tif" none none).1 rfl

/-- C8: during metadata collection the worker pool is bounded — in every
state reachable from the initial pool state, the number of concurrently
pending futures never exceeds the fixed bound of 1000; outside the pool the
modelled processing is sequential. -/
theorem c8_bounded_worker_pool (files : List String) (s : PoolState)
    (h : Relation.ReflTransGen poolStep (poolInit files) s) :
    s.pending ≤ CONCURRENT_FUTURES_LIMIT := by
  induction h with
  | refl => exact Nat.zero_le _
  | tail hst step ih =>
      cases step with
      | submit p f rest done hlt => exact hlt
      | complete p rem done f => exact le_trans (Nat.le_succ p) ih

/-- C8 witness: after submitting one file from a one-file run, one future is
pending, within the bound of 1000. -/
theorem c8_witness :
    (⟨1, [], []⟩ : PoolState).pending ≤ CONCURRENT_FUTURES_LIMIT :=
  c8_bounded_worker_pool ["tiles/NDWI_2020_001_002.tif"] ⟨1, [], []⟩
    (Relation.ReflTransGen.single
      (poolStep.submit 0 "tiles/NDWI_2020_001_002.tif" [] [] (by decide)))

/-- C9: with a positive `max_files` value `n`, `list_input_files` and the
build operations process exactly the first `n` matched files; with
`max_files` absent (or `-1` on the command line) every matched file is
processed; and the limited file list is always a prefix of the unlimited
one. -/
theorem c9_max_files (dir : List GeoTiffFile) (glob : String) (n : Nat)
    (_pos : 0 < n) :
    list_input_files dir glob (some n) = (glob_files dir glob).take n ∧
    list_input_files dir glob none = glob_files dir glob ∧
    list_input_files dir glob (cliMaxFiles (-1)) = glob_files dir glob ∧
    (∃ t, list_input_files dir glob (some n) ++ t =
      list_input_files dir glob none) ∧
    (∀ cfg post, build_collection cfg dir glob (some n) post =
      save_collection (make_collection cfg (make_stac_items post
        (collect_metadata cfg ((glob_files dir glob).take n)).1))) := by
  refine ⟨rfl, rfl, ?_, ?_, ?_⟩
  · have hc : cliMaxFiles (-1) = none := by
      unfold cliMaxFiles
      norm_num
    rw [hc]
    rfl
  · exact ⟨(glob_files dir glob).drop n, List.take_append_drop n _⟩
  · intro cfg post
    unfold build_collection build_collection_run
    simp [collect_metadata_ev_eq, list_input_files, applyMaxFiles]

/-- C9 witness: with `max_files = 1` the demo run selects exactly the first
of the two matched files, and the limited list is a prefix of the unlimited
one. -/
theorem c9_witness :
    list_input_files demo_dir "*/*.tif" (some 1) =
      (glob_files demo_dir "*/*.tif").take 1 ∧
    list_input_files demo_dir "*/*.tif" none =
      glob_files demo_dir "*/*.tif" ∧
    list_input_files demo_dir "*/*.tif" (cliMaxFiles (-1)) =
      glob_files demo_dir "*/*.tif" ∧
    (∃ t, list_input_files demo_dir "*/*.tif" (some 1) ++ t =
      list_input_files demo_dir "*/*.tif" none) ∧
    (∀ cfg post,
      build_collection cfg demo_dir "*/*.tif" (some 1) post =
        save_collection (make_collection cfg (make_stac_items post
          (collect_metadata cfg
            ((glob_files demo_dir "*/*.tif").take 1)).1))) :=
  c9_max_files demo_dir "*/*.tif" 1 (by decide)

/-- C10: when an `item_postprocessor` is supplied, every STAC item in the
output of `list_stac_items` and `build_collection` equals the result of
applying the postprocessor to the item the pipeline would otherwise
generate; without a postprocessor the grouped items are emitted
unmodified. -/
theorem c10_item_postprocessor (cfg : CollectionConfig)
    (dir : List GeoTiffFile) (glob : String) (max_files : Option Nat)
    (f : StacItem → StacItem) :
    (list_stac_items cfg dir glob max_files (some f)).1 =
      ((list_stac_items cfg dir glob max_files none).1).map f ∧
    (list_stac_items cfg dir glob max_files (some f)).2 =
      (list_stac_items cfg dir glob max_files none).2 ∧
    (list_stac_items cfg dir glob max_files none).1 =
      (groupListBy (fun m => m.item_id)
        (list_asset_metadata cfg dir glob max_files).1).map
        (fun kg => mkItemCore kg.1 kg.2) ∧
    build_collection cfg dir glob max_files (some f) =
      save_collection (make_collection cfg
        (((list_stac_items cfg dir glob max_files none).1).map f)) := by
  refine ⟨?_, rfl, ?_, ?_⟩
  · unfold list_stac_items make_stac_items
    simp [applyPost, List.map_map, Function.comp]
  · unfold list_stac_items make_stac_items
    simp [applyPost]
  · unfold build_collection build_collection_run list_stac_items
      make_stac_items list_asset_metadata
    simp [collect_metadata_ev_eq, applyPost, List.map_map, Function.comp]
    rfl

end StacBuilder
